import Mathlib

/-!
Shallow embedding of `markdown2text.py` (StephenGenusa/MarkdownToText).

The Python module converts markdown text to plain text via a fixed
sequence of 16 rewrite passes, threading an optional
`StrippedContentLogger` that records removed fragments by category.
Every Python loop and regex substitution is translated here into an
executable Lean function on `List Char`; regex substitutions are
rendered as explicit left-to-right, non-overlapping scanners that
reproduce the semantics of the concrete patterns appearing in the
source (lazy bounded interiors, lookahead/lookbehind for the italic
patterns, `^` anchors tracked via the previous original character,
greedy whitespace runs that may cross newlines where Python's `\s`
does).  Scanning loops that do not recurse structurally on the input
list take an explicit fuel argument; every wrapper passes
`cs.length + 1`, which is sufficient because each step consumes at
least one character.
-/

set_option maxHeartbeats 2000000
set_option maxRecDepth 4000

namespace MarkdownToText

/-- Python `str` whitespace test (the characters matched by `\s` on
ASCII input and stripped by `str.strip()`). -/
def pyIsSpace (c : Char) : Bool :=
  c = ' ' || c = '\t' || c = '\n' || c = '\r' || c = '\x0b' || c = '\x0c'

/-- Python `str.lstrip()`. -/
def pyLStrip (cs : List Char) : List Char := cs.dropWhile pyIsSpace

/-- Python `str.strip()`. -/
def pyStrip (cs : List Char) : List Char :=
  ((cs.dropWhile pyIsSpace).reverse.dropWhile pyIsSpace).reverse

/-- Python `str.strip('"')`. -/
def pyStripQuote (cs : List Char) : List Char :=
  ((cs.dropWhile (· = '"')).reverse.dropWhile (· = '"')).reverse

/-- Python `s.split(sep)` for a single-character separator (keeps empty
pieces; `"".split(sep) = [""]`). -/
def splitOnChar (sep : Char) : List Char → List (List Char)
  | [] => [[]]
  | c :: rest =>
    if c = sep then [] :: splitOnChar sep rest
    else
      match splitOnChar sep rest with
      | l :: ls => (c :: l) :: ls
      | [] => [[c]]

/-- Python `text.split('\n')`. -/
def splitNl : List Char → List (List Char) := splitOnChar '\n'

/-- Python `'\n'.join(lines)`. -/
def joinNl : List (List Char) → List Char
  | [] => []
  | [l] => l
  | l :: ls => l ++ '\n' :: joinNl ls

/-- Python `s.replace(pat, repl)`: replace all non-overlapping
occurrences left to right (`pat` is a nonempty literal here). -/
def listReplace (pat repl : List Char) : Nat → List Char → List Char
  | 0, cs => cs
  | _ + 1, [] => []
  | fuel + 1, c :: rest =>
    if pat ≠ [] && pat.isPrefixOf (c :: rest) then
      repl ++ listReplace pat repl fuel ((c :: rest).drop pat.length)
    else
      c :: listReplace pat repl fuel rest

def pyReplace (cs pat repl : List Char) : List Char :=
  listReplace pat repl (cs.length + 1) cs

/-- `class StrippedContentLogger`: `enabled` flag plus insertion-ordered
sections mapping a category name to the fragments logged under it. -/
structure StrippedContentLogger where
  enabled : Bool
  sections : List (String × List String)
deriving Repr, DecidableEq

/-- Append `v` to category `k`, creating the category at the end on
first use (Python dict insertion order). -/
def addEntry : List (String × List String) → String → String → List (String × List String)
  | [], k, v => [(k, [v])]
  | (k', vs) :: rest, k, v =>
    if k' = k then (k', vs ++ [v]) :: rest else (k', vs) :: addEntry rest k v

/-- `StrippedContentLogger.log`: record `removed` under `step` unless
logging is disabled or the fragment is whitespace-only. -/
def StrippedContentLogger.log (lg : StrippedContentLogger) (step removed : String) :
    StrippedContentLogger :=
  if !lg.enabled || pyStrip removed.data = [] then lg
  else { lg with sections := addEntry lg.sections step removed }

/-- Apply a chronological list of (category, fragment) log calls. -/
def applyLogs (lg : StrippedContentLogger) (frs : List (String × String)) :
    StrippedContentLogger :=
  frs.foldl (fun l cf => l.log cf.1 cf.2) lg

/-- Look up the fragments recorded under a category. -/
def lookupSection (lg : StrippedContentLogger) (k : String) : Option (List String) :=
  (lg.sections.find? (fun kv => kv.1 = k)).map (fun kv => kv.2)

/-- Concatenate a list of lists. -/
def catLists : List (List α) → List α
  | [] => []
  | l :: ls => l ++ catLists ls

/-!  ## Regex scanning primitives

The inline patterns of the source all have the shape
`open (interior-class){lo,cap}? close` where the interior character
class excludes the delimiter character (and `\n`).  Because the class
excludes the closing character, the lazy interior runs exactly up to
the first occurrence of the closing character; if the full closing
delimiter does not follow there, no match starts at this position and
the engine moves on by one character. -/

/-- Interior of a delimited span: the characters strictly before the
first occurrence of `stop`, provided none of them is a newline (unless
`nlOk`), at least `lo` of them exist and at most `cap` (when given).
Returns `(interior, rest)` with `rest` beginning at the `stop`
character. -/
def interiorTo (stop : Char) (nlOk : Bool) (lo : Nat) (cap : Option Nat) :
    List Char → Option (List Char × List Char)
  | [] => none
  | c :: rest =>
    if c = stop then
      if lo = 0 then some ([], c :: rest) else none
    else if !nlOk && c = '\n' then none
    else
      match cap with
      | some 0 => none
      | _ =>
        match interiorTo stop nlOk (lo - 1) (cap.map (· - 1)) rest with
        | some (i, r) => some (c :: i, r)
        | none => none

/-- `re.findall` plus `re.sub(pat, r'\1', ...)` for a pattern of the
shape `dᵏ([^d\n]{lo,cap}?)dᵏ` (inline code, `***`, `**`, `__`, `~~`).
Returns the chronological `(category, full match)` log calls and the
rewritten text (each match replaced by its interior). -/
def stripSymGo (cat : String) (d : Char) (k lo : Nat) (cap : Option Nat) :
    Nat → List Char → List (String × String) × List Char
  | 0, cs => ([], cs)
  | _ + 1, [] => ([], [])
  | fuel + 1, c :: rest =>
    let cs := c :: rest
    let delim := List.replicate k d
    if delim.isPrefixOf cs then
      match interiorTo d false lo cap (cs.drop k) with
      | some (i, r) =>
        if delim.isPrefixOf r then
          let (ls, out) := stripSymGo cat d k lo cap fuel (r.drop k)
          ((cat, String.mk (delim ++ i ++ delim)) :: ls, i ++ out)
        else
          let (ls, out) := stripSymGo cat d k lo cap fuel rest
          (ls, c :: out)
      | none =>
        let (ls, out) := stripSymGo cat d k lo cap fuel rest
        (ls, c :: out)
    else
      let (ls, out) := stripSymGo cat d k lo cap fuel rest
      (ls, c :: out)

def stripSym (cat : String) (d : Char) (k lo : Nat) (cap : Option Nat)
    (cs : List Char) : List (String × String) × List Char :=
  stripSymGo cat d k lo cap (cs.length + 1) cs

/-- `re.findall` plus `re.sub` for the italic patterns
`(?<!d)d([^d\n]{1,125}?)d(?!d)`; `prev` is the character of the
original string immediately before the current position (for the
lookbehind — matches are located in the original string, so after a
match `prev` is its closing delimiter). -/
def stripItalicGo (cat : String) (d : Char) :
    Nat → Option Char → List Char → List (String × String) × List Char
  | 0, _, cs => ([], cs)
  | _ + 1, _, [] => ([], [])
  | fuel + 1, prev, c :: rest =>
    if c = d && prev ≠ some d then
      match interiorTo d false 1 (some 125) rest with
      | some (i, r) =>
        if (r.drop 1).head? ≠ some d then
          let (ls, out) := stripItalicGo cat d fuel (some d) (r.drop 1)
          ((cat, String.mk (d :: i ++ [d])) :: ls, i ++ out)
        else
          let (ls, out) := stripItalicGo cat d fuel (some c) rest
          (ls, c :: out)
      | none =>
        let (ls, out) := stripItalicGo cat d fuel (some c) rest
        (ls, c :: out)
    else
      let (ls, out) := stripItalicGo cat d fuel (some c) rest
      (ls, c :: out)

def stripItalic (cat : String) (d : Char) (cs : List Char) :
    List (String × String) × List Char :=
  stripItalicGo cat d (cs.length + 1) none cs

/-!  ## `safe_remove_emphasis` -/

/-- Body of the per-line loop of `safe_remove_emphasis`: the five
findall/sub pairs applied in sequence, each to the previous result. -/
def emphasisLine (cs : List Char) : List (String × String) × List Char :=
  let (l1, t1) := stripSym "bold_italic" '*' 3 1 (some 125) cs
  let (l2, t2) := stripSym "bold_asterisks" '*' 2 1 (some 125) t1
  let (l3, t3) := stripSym "bold_underscores" '_' 2 1 (some 125) t2
  let (l4, t4) := stripItalic "italic_asterisks" '*' t3
  let (l5, t5) := stripItalic "italic_underscores" '_' t4
  (l1 ++ l2 ++ l3 ++ l4 ++ l5, t5)

def safe_remove_emphasis_core (cs : List Char) :
    List (String × String) × List Char :=
  let pairs := (splitNl cs).map emphasisLine
  (catLists (pairs.map (fun p => p.1)), joinNl (pairs.map (fun p => p.2)))

/-- `safe_remove_emphasis(text, logger)`. -/
def safe_remove_emphasis (text : String) (lg : StrippedContentLogger) :
    String × StrippedContentLogger :=
  let (frs, out) := safe_remove_emphasis_core text.data
  (String.mk out, applyLogs lg frs)

/-!  ## `safe_remove_code_blocks` -/

def codeBlockPlaceholder : List Char := "[CODE BLOCK]".data

/-- `line.strip().startswith('```')`. -/
def isFence (line : List Char) : Bool :=
  ['`', '`', '`'].isPrefixOf (pyStrip line)

/-- Loop state of `safe_remove_code_blocks` (`idx` is the 0-based line
counter from `enumerate`; the Python `-1` sentinel for
`code_block_start_line` is never read outside a block, so `startLine`
is a `Nat` initialised to 0). -/
structure CodeScanState where
  resultLines : List (List Char)
  inBlock : Bool
  startLine : Nat
  buffer : List (List Char)
  idx : Nat
  closed : List (List Char)
deriving Repr, DecidableEq

def codeScanInit : CodeScanState := ⟨[], false, 0, [], 0, []⟩

/-- One iteration of the line loop of `safe_remove_code_blocks`. -/
def codeScanStep (s : CodeScanState) (line : List Char) : CodeScanState :=
  if isFence line then
    if s.inBlock then
      { s with inBlock := false, buffer := [],
               closed := s.closed ++ [joinNl (s.buffer ++ [line])],
               idx := s.idx + 1 }
    else
      { s with inBlock := true, startLine := s.idx, buffer := [line],
               resultLines := s.resultLines ++ [codeBlockPlaceholder],
               idx := s.idx + 1 }
  else if s.inBlock then
    { s with buffer := s.buffer ++ [line], idx := s.idx + 1 }
  else
    { s with resultLines := s.resultLines ++ [line], idx := s.idx + 1 }

def codeScan (lines : List (List Char)) : CodeScanState :=
  lines.foldl codeScanStep codeScanInit

/-- The stderr warning f-string of `safe_remove_code_blocks`. -/
def unclosedWarning (n : Nat) : String :=
  "Warning: Unclosed code block starting at line " ++ toString n

/-- `safe_remove_code_blocks(text, logger)`; the third component is the
list of warnings written to stderr. -/
def safe_remove_code_blocks (text : String) (lg : StrippedContentLogger) :
    String × StrippedContentLogger × List String :=
  let st := codeScan (splitNl text.data)
  let frs := st.closed.map (fun b => ("code_blocks", String.mk b)) ++
    (if st.inBlock && !st.buffer.isEmpty then
      [("code_blocks_unclosed", String.mk (joinNl st.buffer))]
     else [])
  let warns := if st.inBlock then [unclosedWarning (st.startLine + 1)] else []
  (String.mk (joinNl st.resultLines), applyLogs lg frs, warns)

/-!  ## `conservative_remove_tables` -/

/-- The character class `[\s\-:|\|]` of the separator check. -/
def tableSepClass (c : Char) : Bool :=
  pyIsSpace c || c = '-' || c = ':' || c = '|'

/-- `re.match(r'^:?-+:?$', part)`: optional leading colon, one or more
dashes, optional trailing colon. -/
def sepCell (cs : List Char) : Bool :=
  let cs1 := match cs with | ':' :: r => r | _ => cs
  let ds := cs1.takeWhile (· = '-')
  !ds.isEmpty && (cs1.drop ds.length = [] || cs1.drop ds.length = [':'])

/-- The separator-line test of `conservative_remove_tables`. -/
def is_table_separator (line : List Char) : Bool :=
  let s := pyStrip line
  match s with
  | [] => false
  | c :: _ =>
    c = '|' && s.getLast? = some '|' &&
    (let interior := (s.drop 1).dropLast
     interior.all tableSepClass && interior.contains '-' &&
     (let parts := ((splitOnChar '|' interior).map pyStrip).filter (· ≠ [])
      decide (parts.length ≥ 2) && parts.all (fun p => sepCell (pyStrip p))))

def tablesGo : List (List Char) → List (String × String) × List (List Char)
  | [] => ([], [])
  | l :: rest =>
    let (ls, out) := tablesGo rest
    if is_table_separator l then (("table_separators", String.mk l) :: ls, out)
    else (ls, l :: out)

def conservative_remove_tables_core (cs : List Char) :
    List (String × String) × List Char :=
  let (ls, out) := tablesGo (splitNl cs)
  (ls, joinNl out)

/-- `conservative_remove_tables(text, logger)`. -/
def conservative_remove_tables (text : String) (lg : StrippedContentLogger) :
    String × StrippedContentLogger :=
  let (frs, out) := conservative_remove_tables_core text.data
  (String.mk out, applyLogs lg frs)

/-!  ## Inline steps of `convert_markdown_to_text` -/

/-- Is the current position a MULTILINE `^` anchor position, given the
previous character of the original string? -/
def atLineStart : Option Char → Bool
  | none => true
  | some c => c = '\n'

/-- `re.sub(r'^#{1,6}\s+', '', text, flags=re.MULTILINE)`: at a line
start, a full run of 1–6 `#` followed by at least one whitespace
character (the greedy `\s+` may consume newlines) is deleted. -/
def hashSubGo : Nat → Option Char → List Char → List Char
  | 0, _, cs => cs
  | _ + 1, _, [] => []
  | fuel + 1, prev, c :: rest =>
    let cs := c :: rest
    let hs := cs.takeWhile (· = '#')
    if atLineStart prev ∧ 1 ≤ hs.length ∧ hs.length ≤ 6 ∧
        ((cs.drop hs.length).head?.any pyIsSpace) then
      let afterHash := cs.drop hs.length
      let w := afterHash.takeWhile pyIsSpace
      hashSubGo fuel (some (w.getLastD ' ')) (afterHash.drop w.length)
    else
      c :: hashSubGo fuel (some c) rest

/-- `re.findall(r'^(#{1,6}\s+.*)$', text, flags=re.MULTILINE)`: the
matches additionally extend over the rest of the line reached after the
whitespace run. -/
def hashFindGo : Nat → Option Char → List Char → List (String × String)
  | 0, _, _ => []
  | _ + 1, _, [] => []
  | fuel + 1, prev, c :: rest =>
    let cs := c :: rest
    let hs := cs.takeWhile (· = '#')
    if atLineStart prev ∧ 1 ≤ hs.length ∧ hs.length ≤ 6 ∧
        ((cs.drop hs.length).head?.any pyIsSpace) then
      let afterHash := cs.drop hs.length
      let w := afterHash.takeWhile pyIsSpace
      let afterWs := afterHash.drop w.length
      let lineRest := afterWs.takeWhile (· ≠ '\n')
      let frag := hs ++ w ++ lineRest
      ("hash_headers", String.mk frag) ::
        hashFindGo fuel (some (frag.getLastD ' ')) (afterWs.drop lineRest.length)
    else
      hashFindGo fuel (some c) rest

/-- `re.match(r'^=+\s*$', l)` (for `ch = '='`) or `^-+\s*$`. -/
def isUnderline (ch : Char) (l : List Char) : Bool :=
  let run := l.takeWhile (· = ch)
  !run.isEmpty && (l.drop run.length).all pyIsSpace

/-- The step-3b loop: when the next line is an underline, keep the
current line, then log and drop the underline via `skip_next`. -/
def setextGo : Bool → List (List Char) → List (String × String) × List (List Char)
  | true, [] => ([], [])
  | false, [] => ([], [])
  | true, l :: rest =>
    let (ls, out) := setextGo false rest
    (("underline_headers", String.mk l) :: ls, out)
  | false, [l] => ([], [l])
  | false, l :: next :: rest =>
    let (ls, out) := setextGo (isUnderline '=' next || isUnderline '-' next) (next :: rest)
    (ls, l :: out)

/-- Step 5a, `^\[([^\]]+)\]:\s*[^\n]*$` (MULTILINE, sub `''`): the
interior class `[^\]]` also matches newlines, and the greedy `\s*` may
cross line boundaries before `[^\n]*` takes the rest of a line. -/
def refDefGo : Nat → Option Char → List Char → List (String × String) × List Char
  | 0, _, cs => ([], cs)
  | _ + 1, _, [] => ([], [])
  | fuel + 1, prev, c :: rest =>
    let cs := c :: rest
    let attempt : Option (List Char × List Char) :=
      if atLineStart prev ∧ c = '[' then
        match interiorTo ']' true 1 none rest with
        | some (_, r) =>
          match r.drop 1 with
          | ':' :: r3 =>
            let w := r3.takeWhile pyIsSpace
            let afterWs := r3.drop w.length
            let lineRest := afterWs.takeWhile (· ≠ '\n')
            let after := afterWs.drop lineRest.length
            some (cs.take (cs.length - after.length), after)
          | _ => none
        | none => none
      else none
    match attempt with
    | some (full, after) =>
      let (ls, out) := refDefGo fuel (some (full.getLastD ':')) after
      (("reference_link_definitions", String.mk full) :: ls, out)
    | none =>
      let (ls, out) := refDefGo fuel (some c) rest
      (ls, c :: out)

/-- Step 5b, `\[([^\]]+)\]\[[^\]]*\]` (sub `r'\1'`); the recorded
fragment is `f"[{match}][]"` with literally empty reference brackets. -/
def refLinkGo : Nat → List Char → List (String × String) × List Char
  | 0, cs => ([], cs)
  | _ + 1, [] => ([], [])
  | fuel + 1, c :: rest =>
    if c = '[' then
      match interiorTo ']' true 1 none rest with
      | some (i, r) =>
        match r.drop 1 with
        | '[' :: r3 =>
          match interiorTo ']' true 0 none r3 with
          | some (_, r4) =>
            let (ls, out) := refLinkGo fuel (r4.drop 1)
            (("reference_links", String.mk ('[' :: i ++ [']', '[', ']'])) :: ls, i ++ out)
          | none =>
            let (ls, out) := refLinkGo fuel rest
            (ls, c :: out)
        | _ =>
          let (ls, out) := refLinkGo fuel rest
          (ls, c :: out)
      | none =>
        let (ls, out) := refLinkGo fuel rest
        (ls, c :: out)
    else
      let (ls, out) := refLinkGo fuel rest
      (ls, c :: out)

/-- Step 6 images, `!\[([^\]\n]{0,125})\]\([^)\n]{1,125}\)` on one
line; returns the full matches (for the logging loop) and the line
with each image replaced by its alt text. -/
def imageGo : Nat → List Char → List (List Char) × List Char
  | 0, cs => ([], cs)
  | _ + 1, [] => ([], [])
  | fuel + 1, c :: rest =>
    match c, rest with
    | '!', '[' :: r1 =>
      match interiorTo ']' false 0 (some 125) r1 with
      | some (alt, r2) =>
        match r2.drop 1 with
        | '(' :: r3 =>
          match interiorTo ')' false 1 (some 125) r3 with
          | some (url, r4) =>
            let full := '!' :: '[' :: (alt ++ ']' :: '(' :: url ++ [')'])
            let (ms, out) := imageGo fuel (r4.drop 1)
            (full :: ms, alt ++ out)
          | none =>
            let (ms, out) := imageGo fuel rest
            (ms, c :: out)
        | _ =>
          let (ms, out) := imageGo fuel rest
          (ms, c :: out)
      | none =>
        let (ms, out) := imageGo fuel rest
        (ms, c :: out)
    | _, _ =>
      let (ms, out) := imageGo fuel rest
      (ms, c :: out)

/-- Step 6 links, `\[([^\]\n]{1,125})\]\([^)\n]{1,125}\)` on one line. -/
def linkGo : Nat → List Char → List (List Char) × List Char
  | 0, cs => ([], cs)
  | _ + 1, [] => ([], [])
  | fuel + 1, c :: rest =>
    if c = '[' then
      match interiorTo ']' false 1 (some 125) rest with
      | some (lbl, r2) =>
        match r2.drop 1 with
        | '(' :: r3 =>
          match interiorTo ')' false 1 (some 125) r3 with
          | some (url, r4) =>
            let full := '[' :: (lbl ++ ']' :: '(' :: url ++ [')'])
            let (ms, out) := linkGo fuel (r4.drop 1)
            (full :: ms, lbl ++ out)
          | none =>
            let (ms, out) := linkGo fuel rest
            (ms, c :: out)
        | _ =>
          let (ms, out) := linkGo fuel rest
          (ms, c :: out)
      | none =>
        let (ms, out) := linkGo fuel rest
        (ms, c :: out)
    else
      let (ms, out) := linkGo fuel rest
      (ms, c :: out)

/-- The step-6 logging loop calls `re.search(pattern, line).group()`
for every `findall` hit, so it records the FIRST full match once per
hit (a quirk of the source, reproduced faithfully). -/
def linkLineLogs (cat : String) (ms : List (List Char)) : List (String × String) :=
  match ms.head? with
  | none => []
  | some first => ms.map (fun _ => (cat, String.mk first))

/-- Body of the step-6 per-line loop: images first, then links on the
already-rewritten line. -/
def linksImagesLine (cs : List Char) : List (String × String) × List Char :=
  let (ims, t1) := imageGo (cs.length + 1) cs
  let (lks, t2) := linkGo (t1.length + 1) t1
  (linkLineLogs "images" ims ++ linkLineLogs "links" lks, t2)

/-- Match `\s{minWs,}(.+)` at `cs` (an optional following MULTILINE `$`
never constrains further): greedy whitespace—which may cross
newlines—then at least one non-newline character; when the text ends
inside the whitespace the engine backtracks, so `(.+)` becomes the last
non-newline whitespace character if one exists.  Returns
`(consumed, group, rest)` with `consumed = whitespace ++ group`. -/
def wsThenDotPlus (minWs : Nat) (cs : List Char) :
    Option (List Char × List Char × List Char) :=
  let w := cs.takeWhile pyIsSpace
  let rest := cs.drop w.length
  if rest.isEmpty then
    let tNl := w.reverse.takeWhile (· = '\n')
    let w' := w.take (w.length - tNl.length)
    match w'.getLast? with
    | none => none
    | some lastC =>
      if minWs ≤ w'.length - 1 then some (w', [lastC], cs.drop w'.length)
      else none
  else
    if minWs ≤ w.length then
      let g := rest.takeWhile (· ≠ '\n')
      some (w ++ g, g, rest.drop g.length)
    else none

def isBullet (c : Char) : Bool := c = '-' || c = '*' || c = '+'

/-- Step 7, `^\s*[-*+]\s+\[([ xX])\]\s*(.+)$` (MULTILINE, sub `r'\2'`). -/
def taskListGo : Nat → Option Char → List Char → List (String × String) × List Char
  | 0, _, cs => ([], cs)
  | _ + 1, _, [] => ([], [])
  | fuel + 1, prev, c :: rest =>
    let cs := c :: rest
    let attempt : Option (List Char × List Char × List Char) :=
      if atLineStart prev then
        let w0 := cs.takeWhile pyIsSpace
        match cs.drop w0.length with
        | m :: afterM =>
          if isBullet m then
            let w1 := afterM.takeWhile pyIsSpace
            if w1.isEmpty then none
            else
              match afterM.drop w1.length with
              | '[' :: b :: ']' :: afterBox =>
                if b = ' ' || b = 'x' || b = 'X' then
                  match wsThenDotPlus 0 afterBox with
                  | some (consumed, g, r) =>
                    some (w0 ++ m :: (w1 ++ '[' :: b :: ']' :: consumed), g, r)
                  | none => none
                else none
              | _ => none
          else none
        | [] => none
      else none
    match attempt with
    | some (full, g, r) =>
      let (ls, out) := taskListGo fuel (some (full.getLastD ' ')) r
      (("task_lists", String.mk full) :: ls, g ++ out)
    | none =>
      let (ls, out) := taskListGo fuel (some c) rest
      (ls, c :: out)

/-- Step 8a, unordered lists: findall `^(\s*[-*+]\s+)(.+)` (the marker
group is logged) and sub `^\s*[-*+]\s+(.+)` → `r'\1'`. -/
def ulistGo : Nat → Option Char → List Char → List (String × String) × List Char
  | 0, _, cs => ([], cs)
  | _ + 1, _, [] => ([], [])
  | fuel + 1, prev, c :: rest =>
    let cs := c :: rest
    let attempt : Option (List Char × List Char × List Char × List Char) :=
      if atLineStart prev then
        let w0 := cs.takeWhile pyIsSpace
        match cs.drop w0.length with
        | m :: afterM =>
          if isBullet m then
            match wsThenDotPlus 1 afterM with
            | some (consumed, g, r) =>
              some (w0 ++ m :: consumed,
                    w0 ++ m :: consumed.take (consumed.length - g.length), g, r)
            | none => none
          else none
        | [] => none
      else none
    match attempt with
    | some (full, mk, g, r) =>
      let (ls, out) := ulistGo fuel (some (full.getLastD ' ')) r
      (("unordered_lists", String.mk mk) :: ls, g ++ out)
    | none =>
      let (ls, out) := ulistGo fuel (some c) rest
      (ls, c :: out)

/-- Step 8b, ordered lists: findall `^(\s*\d+\.\s+)(.+)` and sub
`^\s*\d+\.\s+(.+)` → `r'\1'`. -/
def olistGo : Nat → Option Char → List Char → List (String × String) × List Char
  | 0, _, cs => ([], cs)
  | _ + 1, _, [] => ([], [])
  | fuel + 1, prev, c :: rest =>
    let cs := c :: rest
    let attempt : Option (List Char × List Char × List Char × List Char) :=
      if atLineStart prev then
        let w0 := cs.takeWhile pyIsSpace
        let afterW := cs.drop w0.length
        let ds := afterW.takeWhile (fun d => d.isDigit)
        if ds.isEmpty then none
        else
          match afterW.drop ds.length with
          | '.' :: afterDot =>
            match wsThenDotPlus 1 afterDot with
            | some (consumed, g, r) =>
              some (w0 ++ ds ++ '.' :: consumed,
                    w0 ++ ds ++ '.' :: consumed.take (consumed.length - g.length), g, r)
            | none => none
          | _ => none
      else none
    match attempt with
    | some (full, mk, g, r) =>
      let (ls, out) := olistGo fuel (some (full.getLastD ' ')) r
      (("ordered_lists", String.mk mk) :: ls, g ++ out)
    | none =>
      let (ls, out) := olistGo fuel (some c) rest
      (ls, c :: out)

/-- The character class of the escape pattern `\\([\\`*_{}\[\]()#+\-.!])`. -/
def escClass (c : Char) : Bool :=
  c = '\\' || c = '`' || c = '*' || c = '_' || c = '{' || c = '}' ||
  c = '[' || c = ']' || c = '(' || c = ')' || c = '#' || c = '+' ||
  c = '-' || c = '.' || c = '!'

/-- The raw allow string tested inside `replace_escape` (backtick,
`*_{}[]()#+-.!` and backslash). -/
def escAllowList : List Char :=
  ['`', '*', '_', '{', '}', '[', ']', '(', ')', '#', '+', '-', '.', '!', '\\']

/-- `replace_escape(match)`: keep the bare character when it is in the
allow list, otherwise re-attach the backslash (the second branch is
unreachable because the pattern class is contained in the allow list). -/
def replace_escape (c : Char) : List Char :=
  if escAllowList.contains c then [c] else ['\\', c]

/-- One application of
`re.sub(r'\\([\\`*_{}\[\]()#+\-.!])', replace_escape, text)` with its
chronological log calls (the callback itself logs). -/
def escSub : List Char → List (String × String) × List Char
  | [] => ([], [])
  | ['\\'] => ([], ['\\'])
  | '\\' :: c :: rest =>
    if escClass c then
      let (ls, out) := escSub rest
      (("escaped_characters", String.mk ['\\', c]) :: ls, replace_escape c ++ out)
    else
      let (ls, out) := escSub (c :: rest)
      (ls, '\\' :: out)
  | c :: rest =>
    let (ls, out) := escSub rest
    (ls, c :: out)

def isQuoteRunChar (c : Char) : Bool := pyIsSpace c || c = '>'

/-- Length of the (unique, anchored) match of `^\s*(?:>\s*)+`: the
maximal prefix of whitespace and `>` characters, provided it contains
at least one `>`; `0` when the pattern does not match. -/
def quoteRunLen (cs : List Char) : Nat :=
  let p := cs.takeWhile isQuoteRunChar
  if p.contains '>' then p.length else 0

/-- Body of the step-10 per-line loop: `gt_count` counts every `>` of
the line (`re.findall(r'>', line)`), the matched leading run is
replaced by `gt_count + 1` spaces, and when the line changed the code
logs `original_line[:len(original_line) - len(processed_line.lstrip())]`. -/
def blockquoteLine (cs : List Char) : List (String × String) × List Char :=
  let g := cs.countP (· = '>')
  let m := quoteRunLen cs
  let processed := if m = 0 then cs else List.replicate (g + 1) ' ' ++ cs.drop m
  if cs = processed then ([], processed)
  else
    ([("blockquotes",
        String.mk (cs.take (cs.length - (pyLStrip processed).length)))],
     processed)

def isHrSym (c : Char) : Bool := c = '-' || c = '*' || c = '_'

/-- After `^\s*[-*_]`, the remainder must be accepted by
`(\s*[-*_])*\s*$`, i.e. consist of whitespace and rule symbols only. -/
def hruleTail : List Char → Bool
  | [] => true
  | c :: r => (pyIsSpace c || isHrSym c) && hruleTail r

/-- `re.match(r'^\s*[-*_](\s*[-*_])*\s*$', line)`. -/
def hruleMatch (cs : List Char) : Bool :=
  match cs.dropWhile pyIsSpace with
  | [] => false
  | c :: r => isHrSym c && hruleTail r

/-- The step-11 line loop: matching lines are logged and dropped. -/
def hrulesGo : List (List Char) → List (String × String) × List (List Char)
  | [] => ([], [])
  | l :: rest =>
    let (ls, out) := hrulesGo rest
    if hruleMatch l then (("horizontal_rules", String.mk l) :: ls, out)
    else (ls, l :: out)

/-- Step 13, `<[^>\n]{0,125}>` on one line (sub `''`). -/
def htmlGo : Nat → List Char → List (String × String) × List Char
  | 0, cs => ([], cs)
  | _ + 1, [] => ([], [])
  | fuel + 1, c :: rest =>
    if c = '<' then
      match interiorTo '>' false 0 (some 125) rest with
      | some (i, r) =>
        let (ls, out) := htmlGo fuel (r.drop 1)
        (("html_tags", String.mk ('<' :: i ++ ['>'])) :: ls, out)
      | none =>
        let (ls, out) := htmlGo fuel rest
        (ls, c :: out)
    else
      let (ls, out) := htmlGo fuel rest
      (ls, c :: out)

/-- Step 15a, `\[\^([^\]\n]{1,125})\](?!:)` (sub `''`). -/
def footRefGo : Nat → List Char → List (String × String) × List Char
  | 0, cs => ([], cs)
  | _ + 1, [] => ([], [])
  | fuel + 1, c :: rest =>
    match c, rest with
    | '[', '^' :: r1 =>
      match interiorTo ']' false 1 (some 125) r1 with
      | some (i, r2) =>
        if (r2.drop 1).head? ≠ some ':' then
          let (ls, out) := footRefGo fuel (r2.drop 1)
          (("footnote_references", String.mk ('[' :: '^' :: (i ++ [']']))) :: ls, out)
        else
          let (ls, out) := footRefGo fuel rest
          (ls, c :: out)
      | none =>
        let (ls, out) := footRefGo fuel rest
        (ls, c :: out)
    | _, _ =>
      let (ls, out) := footRefGo fuel rest
      (ls, c :: out)

/-- Step 15b, `^\[\^([^\]]+)\]:\s*(.+)$` (MULTILINE, sub `''`); the
interior class `[^\]]` may cross newlines. -/
def footDefGo : Nat → Option Char → List Char → List (String × String) × List Char
  | 0, _, cs => ([], cs)
  | _ + 1, _, [] => ([], [])
  | fuel + 1, prev, c :: rest =>
    let attempt : Option (List Char × List Char) :=
      if atLineStart prev ∧ c = '[' then
        match rest with
        | '^' :: r1 =>
          match interiorTo ']' true 1 none r1 with
          | some (i, r2) =>
            match r2.drop 1 with
            | ':' :: r3 =>
              match wsThenDotPlus 0 r3 with
              | some (consumed, _, r4) =>
                some ('[' :: '^' :: (i ++ ']' :: ':' :: consumed), r4)
              | none => none
            | _ => none
          | none => none
        | _ => none
      else none
    match attempt with
    | some (full, r) =>
      let (ls, out) := footDefGo fuel (some (full.getLastD ':')) r
      (("footnote_definitions", String.mk full) :: ls, out)
    | none =>
      let (ls, out) := footDefGo fuel (some c) rest
      (ls, c :: out)

/-- Step 16a, `re.sub(r'\n{3,}', '\n\n', text)` together with the count
of maximal 3+ newline runs found by the findall. -/
def collapseNlGo : Nat → List Char → Nat × List Char
  | 0, cs => (0, cs)
  | _ + 1, [] => (0, [])
  | fuel + 1, c :: rest =>
    if c = '\n' then
      let run := (c :: rest).takeWhile (· = '\n')
      let (n, out) := collapseNlGo fuel ((c :: rest).drop run.length)
      if 3 ≤ run.length then (n + 1, '\n' :: '\n' :: out)
      else (n, run ++ out)
    else
      let (n, out) := collapseNlGo fuel rest
      (n, c :: out)

def excessiveWsMsg (n : Nat) : String :=
  "Found " ++ toString n ++ " instances of 3+ consecutive newlines"

/-- The `try` body of the JSON-like-input pre-step: split once on the
first colon, strip whitespace then quotes, unescape literal `\n` and
`\"` sequences.  Every operation involved is total, so the attempt
always yields a value; `unwrapInput` realises the `except` fallback to
the raw text with `getD`. -/
def unwrapAttempt (cs : List Char) : Option (List Char) :=
  let afterColon := (cs.dropWhile (· ≠ ':')).drop 1
  let t := pyStripQuote (pyStrip afterColon)
  some (pyReplace (pyReplace t ['\\', 'n'] ['\n']) ['\\', '"'] ['"'])

/-- The JSON-like-input detection and unwrapping at the top of
`convert_markdown_to_text`. -/
def unwrapInput (cs : List Char) : List Char :=
  if cs.head? = some '"' && cs.contains ':' then (unwrapAttempt cs).getD cs
  else cs

/-- The `debug_step` message
`f"{step_name}: {before_len} → {after_len} (diff: {diff})"`. -/
def debugStepMsg (name : String) (bl al : Nat) : String :=
  name ++ ": " ++ toString bl ++ " → " ++ toString al ++
    " (diff: " ++ toString ((bl : Int) - (al : Int)) ++ ")"

/-- Everything `convert_markdown_to_text` produces: its return value,
the final logger state, the stderr warnings and the debug prints. -/
structure ConvertResult where
  text : String
  logger : StrippedContentLogger
  warnings : List String
  debugLines : List String
deriving Repr, DecidableEq

/-- All intermediate results of the 16 steps of
`convert_markdown_to_text`.  Each `p*` field is the full output of one
scanner — its chronological `(category, fragment)` log calls paired
with its rewritten text — computed once.  The returned text, the
logger updates, the stderr warnings and the debug lines of the
pipeline are all projections of this record, which mirrors that in the
source every `logger.log` call and every debug print reads the loop's
data without influencing the rewriting. -/
structure PipeSteps where
  t0 : List Char
  st1 : CodeScanState
  t1 : List Char
  p2 : List (String × String) × List Char
  frs3a : List (String × String)
  t3a : List Char
  p3b : List (String × String) × List (List Char)
  t3b : List Char
  p4 : List (String × String) × List Char
  p5a : List (String × String) × List Char
  p5b : List (String × String) × List Char
  pairs6 : List (List (String × String) × List Char)
  t6 : List Char
  p7 : List (String × String) × List Char
  p8a : List (String × String) × List Char
  p8b : List (String × String) × List Char
  e1 : List (String × String) × List Char
  e2 : List (String × String) × List Char
  pairs10 : List (List (String × String) × List Char)
  t10 : List Char
  p11 : List (String × String) × List (List Char)
  t11 : List Char
  p12 : List (String × String) × List Char
  pairs13 : List (List (String × String) × List Char)
  t13 : List Char
  p14 : List (String × String) × List Char
  p15a : List (String × String) × List Char
  p15b : List (String × String) × List Char
  c16 : Nat × List Char
  t16 : List Char
  final : List Char

/-- The 16 steps of `convert_markdown_to_text`, in source order, on the
(already unwrapped) input. -/
def pipeSteps (cs : List Char) : PipeSteps :=
  let t0 := cs
  -- Step 1: Remove code blocks safely
  let st1 := codeScan (splitNl t0)
  let t1 := joinNl st1.resultLines
  -- Step 2: Remove inline code
  let p2 := stripSymGo "inline_code" '`' 1 1 none (t1.length + 1) t1
  let t2 := p2.2
  -- Step 3a: Remove hash-style headers
  let frs3a := hashFindGo (t2.length + 1) none t2
  let t3a := hashSubGo (t2.length + 1) none t2
  -- Step 3b: Handle alternate style headers
  let p3b := setextGo false (splitNl t3a)
  let t3b := joinNl p3b.2
  -- Step 4: Remove emphasis formatting
  let p4 := safe_remove_emphasis_core t3b
  let t4 := p4.2
  -- Step 5: Remove reference-style links and their definitions
  let p5a := refDefGo (t4.length + 1) none t4
  let p5b := refLinkGo (p5a.2.length + 1) p5a.2
  let t5 := p5b.2
  -- Step 6: Remove inline links and images
  let pairs6 := (splitNl t5).map linksImagesLine
  let t6 := joinNl (pairs6.map (fun p => p.2))
  -- Step 7: Remove task list formatting
  let p7 := taskListGo (t6.length + 1) none t6
  let t7 := p7.2
  -- Step 8: Remove regular list formatting
  let p8a := ulistGo (t7.length + 1) none t7
  let p8b := olistGo (p8a.2.length + 1) none p8a.2
  let t8 := p8b.2
  -- Step 9: Handle escaped characters (applied twice)
  let e1 := escSub t8
  let e2 := escSub e1.2
  let t9 := e2.2
  -- Step 10: Remove blockquote formatting
  let pairs10 := (splitNl t9).map blockquoteLine
  let t10 := joinNl (pairs10.map (fun p => p.2))
  -- Step 11: Remove horizontal rules
  let p11 := hrulesGo (splitNl t10)
  let t11 := joinNl p11.2
  -- Step 12: Remove table formatting conservatively
  let p12 := conservative_remove_tables_core t11
  let t12 := p12.2
  -- Step 13: Remove HTML tags
  let pairs13 := (splitNl t12).map (fun l => htmlGo (l.length + 1) l)
  let t13 := joinNl (pairs13.map (fun p => p.2))
  -- Step 14: Remove strikethrough formatting
  let p14 := stripSymGo "strikethrough" '~' 2 1 (some 125) (t13.length + 1) t13
  let t14 := p14.2
  -- Step 15: Remove footnote references and definitions
  let p15a := footRefGo (t14.length + 1) t14
  let p15b := footDefGo (p15a.2.length + 1) none p15a.2
  let t15 := p15b.2
  -- Step 16: Clean up excessive whitespace
  let c16 := collapseNlGo (t15.length + 1) t15
  let t16 := joinNl ((splitNl c16.2).map pyStrip)
  ⟨t0, st1, t1, p2, frs3a, t3a, p3b, t3b, p4, p5a, p5b, pairs6, t6, p7,
   p8a, p8b, e1, e2, pairs10, t10, p11, t11, p12, pairs13, t13, p14,
   p15a, p15b, c16, t16, pyStrip t16⟩

/-- `convert_markdown_to_text(markdown_content, debug=False, logger=None)`:
the 16-step pipeline.  The rewritten text of each step depends only on
the previous text; the logger consumes each step's chronological log
calls; `debug` only selects whether the diagnostic lines are produced. -/
def convert_markdown_to_text (markdown_content : String) (debug : Bool)
    (logger : Option StrippedContentLogger) : ConvertResult :=
  let lg0 := logger.getD ⟨false, []⟩
  let P := pipeSteps (unwrapInput markdown_content.data)
  let origLen := P.t0.length
  let frs1 := P.st1.closed.map (fun b => ("code_blocks", String.mk b)) ++
    (if P.st1.inBlock && !P.st1.buffer.isEmpty then
      [("code_blocks_unclosed", String.mk (joinNl P.st1.buffer))]
     else [])
  let warns :=
    if P.st1.inBlock then [unclosedWarning (P.st1.startLine + 1)] else []
  let lg1 := applyLogs lg0 frs1
  let lg2 := applyLogs lg1 P.p2.1
  let lg3a := applyLogs lg2 P.frs3a
  let lg3b := applyLogs lg3a P.p3b.1
  let lg4 := applyLogs lg3b P.p4.1
  let lg5 := applyLogs (applyLogs lg4 P.p5a.1) P.p5b.1
  let lg6 := applyLogs lg5 (catLists (P.pairs6.map (fun p => p.1)))
  let lg7 := applyLogs lg6 P.p7.1
  let lg8 := applyLogs (applyLogs lg7 P.p8a.1) P.p8b.1
  let lg9 := applyLogs (applyLogs lg8 P.e1.1) P.e2.1
  let lg10 := applyLogs lg9 (catLists (P.pairs10.map (fun p => p.1)))
  let lg11 := applyLogs lg10 P.p11.1
  let lg12 := applyLogs lg11 P.p12.1
  let lg13 := applyLogs lg12 (catLists (P.pairs13.map (fun p => p.1)))
  let lg14 := applyLogs lg13 P.p14.1
  let lg15 := applyLogs (applyLogs lg14 P.p15a.1) P.p15b.1
  let lg16 := applyLogs lg15
    (if P.c16.1 ≠ 0 then [("excessive_whitespace", excessiveWsMsg P.c16.1)]
     else [])
  let dbg :=
    if debug then
      ["Starting conversion - original length: " ++ toString origLen,
       debugStepMsg "Step 1 - Code blocks" P.t0.length P.t1.length,
       debugStepMsg "Step 2 - Inline code" P.t1.length P.p2.2.length,
       debugStepMsg "Step 3a - Hash headers" P.p2.2.length P.t3a.length,
       debugStepMsg "Step 3b - Underline headers" P.t3a.length P.t3b.length,
       debugStepMsg "Step 4 - All emphasis" P.t3b.length P.p4.2.length,
       debugStepMsg "Step 5 - Reference links" P.p4.2.length P.p5b.2.length,
       debugStepMsg "Step 6 - Links and images" P.p5b.2.length P.t6.length,
       debugStepMsg "Step 7 - Task lists" P.t6.length P.p7.2.length,
       debugStepMsg "Step 8 - Regular lists" P.p7.2.length P.p8b.2.length,
       debugStepMsg "Step 9 - Escaped characters" P.p8b.2.length P.e2.2.length,
       debugStepMsg "Step 10 - Blockquotes" P.e2.2.length P.t10.length,
       debugStepMsg "Step 11 - Horizontal rules" P.t10.length P.t11.length,
       debugStepMsg "Step 12 - Tables (conservative)" P.t11.length P.p12.2.length,
       debugStepMsg "Step 13 - HTML tags" P.p12.2.length P.t13.length,
       debugStepMsg "Step 14 - Strikethrough" P.t13.length P.p14.2.length,
       debugStepMsg "Step 15 - Footnotes" P.p14.2.length P.p15b.2.length,
       debugStepMsg "Step 16 - Clean whitespace" P.p15b.2.length P.t16.length,
       "Final length: " ++ toString P.final.length ++
         " (total reduction: " ++
         toString ((origLen : Int) - (P.final.length : Int)) ++ ")"]
    else []
  ⟨String.mk P.final, lg16, warns, dbg⟩

/-!  ## Claim theorems -/

/-- C1: for every input string, debug flag and optional ledger,
`convert_markdown_to_text` terminates with a `ConvertResult` — the
embedding is total by construction (every loop of the source is
structural recursion here), and the input-prefix unwrapping attempt
always yields a value, so the `except` fallback to the raw text never
has to absorb a failure. -/
theorem claim_C1_convert_total (s : String) (d : Bool)
    (o : Option StrippedContentLogger) :
    (∃ r : ConvertResult, convert_markdown_to_text s d o = r) ∧
      unwrapAttempt s.data ≠ none :=
  ⟨⟨_, rfl⟩, by simp [unwrapAttempt]⟩

/-- C2: the returned plain text depends neither on the debug flag nor
on the supplied logger (including an absent or disabled one): the text
chain of the pipeline never reads either. -/
theorem claim_C2_output_independent (s : String) (d₁ d₂ : Bool)
    (o₁ o₂ : Option StrippedContentLogger) :
    (convert_markdown_to_text s d₁ o₁).text =
      (convert_markdown_to_text s d₂ o₂).text := rfl

/-- C3 counterexample: on the two-line table input the pipeline returns
`| A | B |` — the data row keeps its pipes — not `A | B` as claimed. -/
theorem claim_C3_counterexample :
    (convert_markdown_to_text "| A | B |\n|---|---|" false
        (some ⟨true, []⟩)).text ≠ "A | B" := by decide

/-- C3 amended: the data row is retained verbatim as `| A | B |` (the
pipeline never strips the pipes of a data row), the separator line is
removed, and the ledger records it under `table_separators`. -/
theorem claim_C3_amended :
    (convert_markdown_to_text "| A | B |\n|---|---|" false
        (some ⟨true, []⟩)).text = "| A | B |" ∧
    lookupSection
        (convert_markdown_to_text "| A | B |\n|---|---|" false
          (some ⟨true, []⟩)).logger "table_separators" =
      some ["|---|---|"] := by
  exact ⟨by decide, by decide⟩

/-- C4 counterexample: `\# Hello` converts to `# Hello`, no line of
which is a horizontal-rule false positive, yet running the pipeline on
`# Hello` strips the recreated hash header and returns `Hello`. -/
theorem claim_C4_counterexample :
    (convert_markdown_to_text "\\# Hello" false none).text = "# Hello" ∧
    (convert_markdown_to_text "# Hello" false none).text = "Hello" ∧
    ((splitNl "# Hello".data).all (fun l => !hruleMatch l)) = true ∧
    ("Hello" : String) ≠ "# Hello" :=
  ⟨by decide, by decide, by decide, by decide⟩

/-!  ### Helper lemmas for the blockquote pass (C5) -/

theorem drop_length_takeWhile (p : Char → Bool) (cs : List Char) :
    cs.drop (cs.takeWhile p).length = cs.dropWhile p := by
  induction cs with
  | nil => rfl
  | cons c r ih =>
    by_cases h : p c = true <;>
      simp [List.takeWhile_cons, List.dropWhile_cons, h, ih]

theorem quoteRunLen_spec (cs : List Char) (h : quoteRunLen cs ≠ 0) :
    (cs.takeWhile isQuoteRunChar).contains '>' = true ∧
      quoteRunLen cs = (cs.takeWhile isQuoteRunChar).length := by
  by_cases hc : (cs.takeWhile isQuoteRunChar).contains '>' = true
  · refine ⟨hc, ?_⟩
    unfold quoteRunLen
    rw [if_pos hc]
  · refine absurd ?_ h
    unfold quoteRunLen
    rw [if_neg hc]

/-- The leading quote run contains a `>`, while the replacement prefix
is all spaces, so the processed line differs from the original (the
count of `>` characters strictly drops). -/
theorem blockquote_changed (cs : List Char) (h : quoteRunLen cs ≠ 0) :
    cs ≠ List.replicate (cs.countP (· = '>') + 1) ' ' ++
        cs.drop (quoteRunLen cs) := by
  obtain ⟨hc, hm⟩ := quoteRunLen_spec cs h
  intro he
  have hmem : '>' ∈ cs.takeWhile isQuoteRunChar := by
    simpa using hc
  have hsplit : cs.takeWhile isQuoteRunChar ++ cs.dropWhile isQuoteRunChar = cs :=
    List.takeWhile_append_dropWhile isQuoteRunChar cs
  have hdrop : cs.drop (quoteRunLen cs) = cs.dropWhile isQuoteRunChar := by
    rw [hm, drop_length_takeWhile]
  have hcount := congrArg (List.countP (fun c => c = '>')) he
  rw [List.countP_append, hdrop] at hcount
  have hrep : (List.replicate (cs.countP (fun c => c = '>') + 1) ' ').countP
      (fun c => c = '>') = 0 := by
    apply List.countP_eq_zero.mpr
    intro a ha
    have := List.eq_of_mem_replicate ha
    subst this
    decide
  have hcs : cs.countP (fun c => c = '>') =
      (cs.takeWhile isQuoteRunChar).countP (fun c => c = '>') +
        (cs.dropWhile isQuoteRunChar).countP (fun c => c = '>') := by
    conv_lhs => rw [← hsplit]
    rw [List.countP_append]
  have hpos : 0 < (cs.takeWhile isQuoteRunChar).countP (fun c => c = '>') :=
    List.countP_pos_iff.mpr ⟨'>', hmem, by decide⟩
  omega

/-- The text after the matched run starts with neither whitespace nor
`>` (the greedy match is maximal), so `lstrip` of the processed line
recovers exactly that remainder. -/
theorem pyLStrip_blockquote (cs : List Char) (k : Nat) :
    pyLStrip (List.replicate k ' ' ++ cs.dropWhile isQuoteRunChar) =
      cs.dropWhile isQuoteRunChar := by
  unfold pyLStrip
  rw [List.dropWhile_append_of_pos]
  · cases hd : cs.dropWhile isQuoteRunChar with
    | nil => simp
    | cons d r =>
      have hnot : isQuoteRunChar d = false := by
        have := List.head?_dropWhile_not isQuoteRunChar cs
        rw [hd] at this
        simpa using this
      have : pyIsSpace d = false := by
        unfold isQuoteRunChar at hnot
        simp only [Bool.or_eq_false_iff] at hnot
        exact hnot.1
      simp [List.dropWhile_cons, this]
  · intro a ha
    have := List.eq_of_mem_replicate ha
    subst this
    decide

/-- The blockquote rewrite as the claim words it: count only the
LEADING `>` markers and replace the leading run with that count plus
one spaces. -/
def specBlockquoteLine (cs : List Char) : List Char :=
  let p := cs.takeWhile isQuoteRunChar
  if p.contains '>' then
    List.replicate (p.countP (· = '>') + 1) ' ' ++ cs.drop p.length
  else cs

/-- C5 counterexample: on `> a > b` the code counts every `>` of the
line (two, one of them not a leading marker), producing three leading
spaces, while the claimed leading-marker count (one) would produce
two. -/
theorem claim_C5_counterexample :
    (blockquoteLine "> a > b".data).2 ≠ specBlockquoteLine "> a > b".data ∧
    (blockquoteLine "> a > b".data).2 = "   a > b".data ∧
    specBlockquoteLine "> a > b".data = "  a > b".data :=
  ⟨by decide, by decide, by decide⟩

/-- C5 amended: when the line has a leading quote-marker run, the pass
replaces it by a number of spaces equal to the count of ALL `>`
characters of the line (not just the leading markers) plus one, and
logs exactly the removed prefix under `blockquotes`. -/
theorem claim_C5_amended (cs : List Char) (h : quoteRunLen cs ≠ 0) :
    (blockquoteLine cs).2 =
      List.replicate (cs.countP (· = '>') + 1) ' ' ++
        cs.drop (quoteRunLen cs) ∧
    (blockquoteLine cs).1 =
      [("blockquotes", String.mk (cs.take (quoteRunLen cs)))] := by
  obtain ⟨hc, hm⟩ := quoteRunLen_spec cs h
  have hne := blockquote_changed cs h
  have hdrop : cs.drop (quoteRunLen cs) = cs.dropWhile isQuoteRunChar := by
    rw [hm, drop_length_takeWhile]
  have hlen : cs.length -
      (pyLStrip (List.replicate (cs.countP (· = '>') + 1) ' ' ++
        cs.drop (quoteRunLen cs))).length = quoteRunLen cs := by
    rw [hdrop, pyLStrip_blockquote]
    have h1 : (cs.takeWhile isQuoteRunChar).length +
        (cs.dropWhile isQuoteRunChar).length = cs.length := by
      rw [← List.length_append, List.takeWhile_append_dropWhile]
    omega
  simp only [blockquoteLine]
  rw [if_neg h, if_neg hne]
  exact ⟨rfl, by rw [hlen]⟩

theorem claim_C5_witness :
    (blockquoteLine "> hi".data).2 =
      List.replicate ("> hi".data.countP (· = '>') + 1) ' ' ++
        "> hi".data.drop (quoteRunLen "> hi".data) ∧
    (blockquoteLine "> hi".data).1 =
      [("blockquotes", String.mk ("> hi".data.take (quoteRunLen "> hi".data)))] :=
  claim_C5_amended "> hi".data (by decide)

/-!  ### Helper lemmas for the horizontal-rule pass (C6) -/

theorem isHrSym_not_space (c : Char) (h : isHrSym c = true) :
    pyIsSpace c = false := by
  simp only [isHrSym, Bool.or_eq_true, decide_eq_true_eq] at h
  rcases h with (h | h) | h <;> subst h <;> decide

theorem hruleTail_iff (l : List Char) :
    hruleTail l = true ↔ ∀ c ∈ l, pyIsSpace c = true ∨ isHrSym c = true := by
  induction l with
  | nil => simp [hruleTail]
  | cons c r ih => simp [hruleTail, ih, Bool.or_eq_true]

/-- The horizontal-rule line predicate as the claim words it: after
trimming, the line consists of ONE repeating symbol from `{-,*,_}`
possibly separated by spaces. -/
def specHruleLine (cs : List Char) : Bool :=
  ['-', '*', '_'].any (fun d =>
    (pyStrip cs).contains d &&
      (pyStrip cs).all (fun c => c = d || c = ' '))

/-- C6 counterexample: the pass's pattern accepts a line mixing the
three symbols — `-_*` is dropped and logged under `horizontal_rules` —
although it does not repeat a single symbol. -/
theorem claim_C6_counterexample :
    hruleMatch "-_*".data = true ∧
    hrulesGo ["-_*".data] = ([("horizontal_rules", "-_*")], []) ∧
    specHruleLine "-_*".data = false :=
  ⟨by decide, by decide, by decide⟩

/-- C6 amended: a line is dropped (and logged) by the pass exactly when
every character is whitespace or one of `-`, `*`, `_` and at least one
such symbol occurs — the symbols need not agree, and the separators may
be any whitespace. -/
theorem claim_C6_amended (cs : List Char) :
    hruleMatch cs = true ↔
      ((∀ c ∈ cs, pyIsSpace c = true ∨ isHrSym c = true) ∧
        ∃ c ∈ cs, isHrSym c = true) := by
  have hmof : hruleMatch cs =
      (match cs.dropWhile pyIsSpace with
        | [] => false
        | c :: r => isHrSym c && hruleTail r) := rfl
  cases hd : cs.dropWhile pyIsSpace with
  | nil =>
    rw [hmof, hd]
    simp only [Bool.false_eq_true, false_iff]
    rintro ⟨hall, c, hcmem, hcsym⟩
    have hws : ∀ x ∈ cs, pyIsSpace x = true := by
      have := List.dropWhile_eq_nil_iff.mp hd
      simpa using this
    have hns := isHrSym_not_space c hcsym
    rw [hws c hcmem] at hns
    cases hns
  | cons c r =>
    rw [hmof, hd]
    have hcs : cs = cs.takeWhile pyIsSpace ++ c :: r := by
      conv_lhs => rw [← List.takeWhile_append_dropWhile pyIsSpace cs]
      rw [hd]
    have hcnotws : pyIsSpace c = false := by
      have := List.head?_dropWhile_not pyIsSpace cs
      rw [hd] at this
      simpa using this
    constructor
    · intro h
      rw [Bool.and_eq_true] at h
      obtain ⟨hsym, htail⟩ := h
      have htail' := (hruleTail_iff r).mp htail
      refine ⟨?_, c, ?_, hsym⟩
      · intro x hx
        rw [hcs] at hx
        rcases List.mem_append.mp hx with hx | hx
        · exact Or.inl (List.mem_takeWhile_imp hx)
        · rcases List.mem_cons.mp hx with rfl | hx
          · exact Or.inr hsym
          · exact htail' x hx
      · rw [hcs]
        exact List.mem_append_right _ (List.mem_cons_self c r)
    · rintro ⟨hall, -⟩
      have hcmem : c ∈ cs := by
        rw [hcs]
        exact List.mem_append_right _ (List.mem_cons_self c r)
      have hcsym : isHrSym c = true := by
        rcases hall c hcmem with hws | hsym
        · rw [hcnotws] at hws
          cases hws
        · exact hsym
      have htail : hruleTail r = true := by
        refine (hruleTail_iff r).mpr ?_
        intro x hx
        refine hall x ?_
        rw [hcs]
        exact List.mem_append_right _ (List.mem_cons_of_mem _ hx)
      show (isHrSym c && hruleTail r) = true
      rw [hcsym, htail]
      rfl

theorem claim_C6_witness :
    (∀ c ∈ "- * _".data, pyIsSpace c = true ∨ isHrSym c = true) ∧
      ∃ c ∈ "- * _".data, isHrSym c = true :=
  (claim_C6_amended "- * _".data).mp (by decide)

/-!  ### C7 / C8 -/

/-- A 126-character interior, one more than the 125-character cap. -/
def interior126 : List Char := List.replicate 126 'a'

/-- C7 counterexample: the inline-code pattern `` `([^`\n]+)` `` has no
125-character bound, so a backtick span with a 126-character interior
IS stripped by the inline-code pass (step 2), contradicting the claim
that it is left unmodified. -/
theorem claim_C7_counterexample :
    (stripSym "inline_code" '`' 1 1 none ('`' :: interior126 ++ ['`'])).2 =
      interior126 ∧
    ('`' :: interior126 ++ ['`']) ≠ interior126 :=
  ⟨by decide, by decide⟩

/-- Over-long occurrences for the bounded-span passes: a link and an
image whose label/alt text is 126 characters, a footnote reference and
a footnote definition with a 126-character id, and an angle-bracket
span with a 126-character interior. -/
def longLink : List Char := '[' :: (interior126 ++ ']' :: '(' :: 'u' :: [')'])

def longImage : List Char := '!' :: longLink

def longFootRef : List Char := '[' :: '^' :: (interior126 ++ [']'])

def longHtml : List Char := '<' :: (interior126 ++ ['>'])

def longFootDef : List Char :=
  '[' :: '^' :: (interior126 ++ ']' :: ':' :: ' ' :: "body".data)

/-- C7 amended: the 125-character interior cap holds for the emphasis,
inline-link, inline-image, strikethrough, inline-footnote-reference and
HTML passes — each leaves an occurrence whose bounded interior is 126
characters unmodified (while a 125-character emphasis interior is
stripped) — but NOT for inline code, whose unbounded pattern strips a
backtick span with a 126-character interior, and not for footnote
definition lines, whose unbounded id class `[^\]]+` still removes a
definition with a 126-character id. -/
theorem claim_C7_amended :
    (safe_remove_emphasis_core
        ('*' :: '*' :: interior126 ++ ['*', '*'])).2 =
      ('*' :: '*' :: interior126 ++ ['*', '*']) ∧
    (linkGo (longLink.length + 1) longLink).2 = longLink ∧
    (imageGo (longImage.length + 1) longImage).2 = longImage ∧
    (stripSym "strikethrough" '~' 2 1 (some 125)
        ('~' :: '~' :: interior126 ++ ['~', '~'])).2 =
      ('~' :: '~' :: interior126 ++ ['~', '~']) ∧
    (footRefGo (longFootRef.length + 1) longFootRef).2 = longFootRef ∧
    (htmlGo (longHtml.length + 1) longHtml).2 = longHtml ∧
    (safe_remove_emphasis_core
        ('*' :: '*' :: List.replicate 125 'a' ++ ['*', '*'])).2 =
      List.replicate 125 'a' ∧
    (stripSym "inline_code" '`' 1 1 none ('`' :: interior126 ++ ['`'])).2 ≠
      ('`' :: interior126 ++ ['`']) ∧
    (footDefGo (longFootDef.length + 1) none longFootDef).2 = [] :=
  ⟨by decide, by decide, by decide, by decide, by decide, by decide,
   by decide, by decide, by decide⟩

theorem escClass_mem_allow (c : Char) (h : escClass c = true) :
    c ∈ escAllowList := by
  simp only [escClass, Bool.or_eq_true, decide_eq_true_eq] at h
  simp only [escAllowList, List.mem_cons, List.not_mem_nil, or_false]
  tauto

/-- The escape substitution applied twice, as step 9 does. -/
def escTwice (cs : List Char) : List Char := (escSub (escSub cs).2).2

theorem escSub_single (c : Char) : (escSub [c]).2 = [c] := by
  by_cases hc : c = '\\'
  · subst hc
    decide
  · simp [escSub, hc]

/-- C8: one level of backslash escaping is resolved asymmetrically by
the twice-applied escape pass — the backslash is removed exactly when
the escaped character is in the markup punctuation class, any other
escaped character keeps its backslash — and concretely `\*literal\*`
becomes `*literal*` while `\q` stays `\q`. -/
theorem claim_C8_escape_asymmetry :
    (∀ c : Char, escClass c = true → escTwice ['\\', c] = [c]) ∧
    (∀ c : Char, escClass c = false → escTwice ['\\', c] = ['\\', c]) ∧
    escTwice "\\*literal\\*".data = "*literal*".data ∧
    escTwice "\\q".data = "\\q".data := by
  refine ⟨?_, ?_, by decide, by decide⟩
  · intro c h
    have ha := escClass_mem_allow c h
    have h1 : (escSub ['\\', c]).2 = [c] := by
      simp [escSub, h, replace_escape, ha]
    show (escSub (escSub ['\\', c]).2).2 = [c]
    rw [h1, escSub_single]
  · intro c h
    have hc : c ≠ '\\' := by
      intro e
      subst e
      simp [escClass] at h
    have h1 : (escSub ['\\', c]).2 = ['\\', c] := by
      simp [escSub, h, escSub_single c]
    show (escSub (escSub ['\\', c]).2).2 = ['\\', c]
    rw [h1, h1]

theorem claim_C8_witness :
    escTwice ['\\', '#'] = ['#'] ∧ escTwice ['\\', 'q'] = ['\\', 'q'] :=
  ⟨claim_C8_escape_asymmetry.1 '#' (by decide),
   claim_C8_escape_asymmetry.2.1 'q' (by decide)⟩

/-!  ### Helper lemmas for the code-block pass (C9, C10) -/

theorem codeScanStep_idx (s : CodeScanState) (l : List Char) :
    (codeScanStep s l).idx = s.idx + 1 := by
  unfold codeScanStep
  split
  · split <;> rfl
  · split <;> rfl

theorem codeScanFold_idx (lines : List (List Char)) (s : CodeScanState) :
    (lines.foldl codeScanStep s).idx = s.idx + lines.length := by
  induction lines generalizing s with
  | nil => simp
  | cons l rest ih =>
    rw [List.foldl_cons, ih, codeScanStep_idx]
    simp
    omega

theorem codeScanStep_fence (s : CodeScanState) (l : List Char)
    (hf : isFence l = true) (hb : s.inBlock = false) :
    codeScanStep s l =
      { s with inBlock := true, startLine := s.idx, buffer := [l],
               resultLines := s.resultLines ++ [codeBlockPlaceholder],
               idx := s.idx + 1 } := by
  simp [codeScanStep, hf, hb]

theorem codeScanFold_inBlock (tail : List (List Char)) (s : CodeScanState)
    (hb : s.inBlock = true) (hnf : ∀ l ∈ tail, isFence l = false) :
    tail.foldl codeScanStep s =
      { s with buffer := s.buffer ++ tail, idx := s.idx + tail.length } := by
  induction tail generalizing s with
  | nil => simp
  | cons l rest ih =>
    have hl : isFence l = false := hnf l (List.mem_cons_self l rest)
    have hstep : codeScanStep s l =
        { s with buffer := s.buffer ++ [l], idx := s.idx + 1 } := by
      simp [codeScanStep, hl, hb]
    rw [List.foldl_cons, hstep,
        ih { s with buffer := s.buffer ++ [l], idx := s.idx + 1 } hb
          (fun x hx => hnf x (List.mem_cons_of_mem _ hx))]
    simp [List.append_assoc]
    omega

/-- Scanning `pre ++ fence :: tail`, with `pre` ending outside a block,
`fence` opening one and no line of `tail` closing it, ends inside a
block whose buffer is exactly `fence :: tail`, whose recorded start is
line `pre.length` (0-based), with the placeholder appended to the
result lines of `pre`. -/
theorem codeScan_unclosed (pre tail : List (List Char)) (fence : List Char)
    (hpre : (codeScan pre).inBlock = false)
    (hf : isFence fence = true)
    (htail : ∀ l ∈ tail, isFence l = false) :
    codeScan (pre ++ fence :: tail) =
      { resultLines := (codeScan pre).resultLines ++ [codeBlockPlaceholder],
        inBlock := true,
        startLine := pre.length,
        buffer := fence :: tail,
        idx := pre.length + 1 + tail.length,
        closed := (codeScan pre).closed } := by
  have hidx : (codeScan pre).idx = pre.length := by
    have := codeScanFold_idx pre codeScanInit
    simpa [codeScan, codeScanInit] using this
  have happ : codeScan (pre ++ fence :: tail) =
      tail.foldl codeScanStep (codeScanStep (codeScan pre) fence) := by
    unfold codeScan
    rw [List.foldl_append, List.foldl_cons]
  rw [happ]
  rw [codeScanFold_inBlock tail (codeScanStep (codeScan pre) fence)
      (by rw [codeScanStep_fence _ _ hf hpre]) htail]
  rw [codeScanStep_fence _ _ hf hpre]
  simp [hidx]

theorem applyLogs_enabled (frs : List (String × String))
    (lg : StrippedContentLogger) :
    (applyLogs lg frs).enabled = lg.enabled := by
  induction frs generalizing lg with
  | nil => rfl
  | cons f rest ih =>
    show (applyLogs (lg.log f.1 f.2) rest).enabled = lg.enabled
    rw [ih]
    unfold StrippedContentLogger.log
    split <;> rfl

theorem find?_addEntry_other (sections : List (String × List String))
    (k' k v : String) (h : k' ≠ k) :
    (addEntry sections k' v).find? (fun kv => kv.1 = k) =
      sections.find? (fun kv => kv.1 = k) := by
  induction sections with
  | nil =>
    show List.find? _ [(k', [v])] = List.find? _ []
    rw [List.find?_cons_of_neg _ (by simp [h])]
  | cons p rest ih =>
    obtain ⟨pk, pv⟩ := p
    by_cases hp : pk = k'
    · have h1 : addEntry ((pk, pv) :: rest) k' v = (pk, pv ++ [v]) :: rest := by
        simp [addEntry, hp]
      have hpk : ¬ pk = k := by
        rw [hp]
        exact h
      rw [h1, List.find?_cons_of_neg _ (by simp [hpk]),
          List.find?_cons_of_neg _ (by simp [hpk])]
    · have h1 : addEntry ((pk, pv) :: rest) k' v =
          (pk, pv) :: addEntry rest k' v := by
        simp [addEntry, hp]
      rw [h1]
      by_cases hk : pk = k
      · rw [List.find?_cons_of_pos _ (by simp [hk]),
            List.find?_cons_of_pos _ (by simp [hk])]
      · rw [List.find?_cons_of_neg _ (by simp [hk]),
            List.find?_cons_of_neg _ (by simp [hk]), ih]

theorem find?_addEntry_self (sections : List (String × List String))
    (k v : String)
    (hn : sections.find? (fun kv => kv.1 = k) = none) :
    (addEntry sections k v).find? (fun kv => kv.1 = k) = some (k, [v]) := by
  induction sections with
  | nil =>
    show List.find? _ [(k, [v])] = _
    rw [List.find?_cons_of_pos _ (by simp)]
  | cons p rest ih =>
    obtain ⟨pk, pv⟩ := p
    by_cases hk : pk = k
    · rw [List.find?_cons_of_pos _ (by simp [hk])] at hn
      cases hn
    · have hrest : rest.find? (fun kv => kv.1 = k) = none := by
        rw [List.find?_cons_of_neg _ (by simp [hk])] at hn
        exact hn
      have h1 : addEntry ((pk, pv) :: rest) k v =
          (pk, pv) :: addEntry rest k v := by
        simp [addEntry, hk]
      rw [h1, List.find?_cons_of_neg _ (by simp [hk])]
      exact ih hrest

theorem lookupSection_log_other (lg : StrippedContentLogger) (k' k v : String)
    (h : k' ≠ k) :
    lookupSection (lg.log k' v) k = lookupSection lg k := by
  unfold StrippedContentLogger.log
  split
  · rfl
  · unfold lookupSection
    show ((addEntry lg.sections k' v).find? (fun kv => kv.1 = k)).map _ = _
    rw [find?_addEntry_other _ _ _ _ h]

theorem lookupSection_applyLogs_other (frs : List (String × String))
    (lg : StrippedContentLogger) (k : String)
    (h : ∀ f ∈ frs, f.1 ≠ k) :
    lookupSection (applyLogs lg frs) k = lookupSection lg k := by
  induction frs generalizing lg with
  | nil => rfl
  | cons f rest ih =>
    show lookupSection (applyLogs (lg.log f.1 f.2) rest) k = _
    rw [ih _ (fun x hx => h x (List.mem_cons_of_mem _ hx)),
        lookupSection_log_other _ _ _ _ (h f (List.mem_cons_self f rest))]

theorem lookupSection_log_new (lg : StrippedContentLogger) (k v : String)
    (he : lg.enabled = true) (hv : pyStrip v.data ≠ [])
    (hn : lookupSection lg k = none) :
    lookupSection (lg.log k v) k = some [v] := by
  unfold StrippedContentLogger.log
  rw [he]
  simp only [Bool.not_true, Bool.false_or]
  rw [if_neg (by simpa using hv)]
  have hfind : lg.sections.find? (fun kv => kv.1 = k) = none := by
    unfold lookupSection at hn
    exact Option.map_eq_none'.mp hn
  unfold lookupSection
  show ((addEntry lg.sections k v).find? (fun kv => kv.1 = k)).map _ = _
  rw [find?_addEntry_self _ _ _ hfind]
  rfl

theorem pyStrip_ne_nil_of_mem (l : List Char) (c : Char) (hc : c ∈ l)
    (hns : pyIsSpace c = false) : pyStrip l ≠ [] := by
  intro h
  unfold pyStrip at h
  rw [List.reverse_eq_nil_iff] at h
  have hall : ∀ x ∈ l.dropWhile pyIsSpace, pyIsSpace x = true := by
    intro x hx
    have := List.dropWhile_eq_nil_iff.mp h
    exact this x (by simpa using hx)
  have hsplit := List.takeWhile_append_dropWhile pyIsSpace l
  rw [← hsplit] at hc
  rcases List.mem_append.mp hc with hx | hx
  · have := List.mem_takeWhile_imp hx
    rw [this] at hns
    cases hns
  · have := hall c hx
    rw [this] at hns
    cases hns

theorem fence_has_backtick (l : List Char) (hf : isFence l = true) :
    '`' ∈ l := by
  unfold isFence at hf
  obtain ⟨t, ht⟩ := List.isPrefixOf_iff_prefix.mp hf
  have hmem : '`' ∈ pyStrip l := by
    rw [← ht]
    simp
  unfold pyStrip at hmem
  rw [List.mem_reverse] at hmem
  have h1 : '`' ∈ (l.dropWhile pyIsSpace).reverse :=
    ((l.dropWhile pyIsSpace).reverse.dropWhile_sublist pyIsSpace).mem hmem
  rw [List.mem_reverse] at h1
  exact (l.dropWhile_sublist pyIsSpace).mem h1

theorem mem_joinNl_head (c : Char) (l : List Char) (ls : List (List Char))
    (hc : c ∈ l) : c ∈ joinNl (l :: ls) := by
  cases ls with
  | nil => simpa [joinNl] using hc
  | cons l2 ls2 =>
    show c ∈ l ++ '\n' :: joinNl (l2 :: ls2)
    exact List.mem_append_left _ hc

theorem applyLogs_append (lg : StrippedContentLogger)
    (a b : List (String × String)) :
    applyLogs lg (a ++ b) = applyLogs (applyLogs lg a) b := by
  unfold applyLogs
  rw [List.foldl_append]

/-- C9: when the input's lines decompose as `pre ++ fence :: tail` with
scanning `pre` ending outside a block, `fence` opening one and no tail
line closing it, `safe_remove_code_blocks` — the only source of
diagnostics, as the final conjunct records for the whole pipeline —
emits exactly one warning naming the 1-based line number of the opening
fence, logs the buffered block `fence :: tail` under
`code_blocks_unclosed` in a fresh enabled ledger, and returns only the
lines produced from `pre` plus the placeholder, excluding the buffered
content. -/
theorem claim_C9_unclosed_fence (t : String) (pre tail : List (List Char))
    (fence : List Char)
    (hsplit : splitNl t.data = pre ++ fence :: tail)
    (hpre : (codeScan pre).inBlock = false)
    (hf : isFence fence = true)
    (htail : ∀ l ∈ tail, isFence l = false) :
    (safe_remove_code_blocks t ⟨true, []⟩).2.2 =
      [unclosedWarning (pre.length + 1)] ∧
    lookupSection (safe_remove_code_blocks t ⟨true, []⟩).2.1
        "code_blocks_unclosed" = some [String.mk (joinNl (fence :: tail))] ∧
    (safe_remove_code_blocks t ⟨true, []⟩).1 =
      String.mk (joinNl ((codeScan pre).resultLines ++ [codeBlockPlaceholder])) ∧
    (∀ (s : String) (d : Bool) (o : Option StrippedContentLogger),
      (convert_markdown_to_text s d o).warnings =
        (safe_remove_code_blocks (String.mk (unwrapInput s.data))
          (o.getD ⟨false, []⟩)).2.2) := by
  have hscan : codeScan (splitNl t.data) =
      { resultLines := (codeScan pre).resultLines ++ [codeBlockPlaceholder],
        inBlock := true, startLine := pre.length, buffer := fence :: tail,
        idx := pre.length + 1 + tail.length,
        closed := (codeScan pre).closed } := by
    rw [hsplit]
    exact codeScan_unclosed pre tail fence hpre hf htail
  have hsrb : safe_remove_code_blocks t ⟨true, []⟩ =
      (String.mk (joinNl ((codeScan pre).resultLines ++ [codeBlockPlaceholder])),
       applyLogs ⟨true, []⟩
         ((codeScan pre).closed.map (fun b => ("code_blocks", String.mk b)) ++
           [("code_blocks_unclosed", String.mk (joinNl (fence :: tail)))]),
       [unclosedWarning (pre.length + 1)]) := by
    unfold safe_remove_code_blocks
    rw [hscan]
    simp
  rw [hsrb]
  refine ⟨rfl, ?_, rfl, fun s d o => rfl⟩
  have hother : ∀ f ∈ (codeScan pre).closed.map
      (fun b => (("code_blocks" : String), String.mk b)),
      f.1 ≠ "code_blocks_unclosed" := by
    intro f hfm
    obtain ⟨b, _, rfl⟩ := List.mem_map.mp hfm
    show ("code_blocks" : String) ≠ "code_blocks_unclosed"
    decide
  have hv : pyStrip (String.mk (joinNl (fence :: tail))).data ≠ [] := by
    apply pyStrip_ne_nil_of_mem _ '`'
    · exact mem_joinNl_head _ _ _ (fence_has_backtick fence hf)
    · decide
  have hn : lookupSection (applyLogs ⟨true, []⟩
      ((codeScan pre).closed.map (fun b => ("code_blocks", String.mk b))))
      "code_blocks_unclosed" = none := by
    rw [lookupSection_applyLogs_other _ _ _ hother]
    rfl
  have he : (applyLogs ⟨true, []⟩
      ((codeScan pre).closed.map
        (fun b => ("code_blocks", String.mk b)))).enabled = true := by
    rw [applyLogs_enabled]
  rw [applyLogs_append]
  exact lookupSection_log_new _ _ _ he hv hn

theorem claim_C9_witness :
    (safe_remove_code_blocks "hello\n```python\nsecret stuff"
        ⟨true, []⟩).2.2 = [unclosedWarning 2] ∧
    lookupSection (safe_remove_code_blocks "hello\n```python\nsecret stuff"
        ⟨true, []⟩).2.1 "code_blocks_unclosed" =
      some [String.mk (joinNl ("```python".data :: ["secret stuff".data]))] ∧
    (safe_remove_code_blocks "hello\n```python\nsecret stuff" ⟨true, []⟩).1 =
      String.mk (joinNl ((codeScan ["hello".data]).resultLines ++
        [codeBlockPlaceholder])) := by
  have h := claim_C9_unclosed_fence "hello\n```python\nsecret stuff"
    ["hello".data] ["secret stuff".data] "```python".data
    (by decide) (by decide) (by decide) (by decide)
  exact ⟨h.1, h.2.1, h.2.2.1⟩

/-- C10: under the same unclosed-fence hypotheses the scan's result
lines still end with the `[CODE BLOCK]` placeholder appended when the
opening fence was seen, so the pass output contains a placeholder for
the unclosed block even though its buffered lines are discarded. -/
theorem claim_C10_placeholder (t : String) (pre tail : List (List Char))
    (fence : List Char)
    (hsplit : splitNl t.data = pre ++ fence :: tail)
    (hpre : (codeScan pre).inBlock = false)
    (hf : isFence fence = true)
    (htail : ∀ l ∈ tail, isFence l = false) :
    (codeScan (splitNl t.data)).resultLines =
      (codeScan pre).resultLines ++ [codeBlockPlaceholder] ∧
    codeBlockPlaceholder ∈ (codeScan (splitNl t.data)).resultLines ∧
    (∃ ls, (safe_remove_code_blocks t ⟨true, []⟩).1 =
      String.mk (joinNl (ls ++ [codeBlockPlaceholder]))) := by
  have hscan : codeScan (splitNl t.data) =
      { resultLines := (codeScan pre).resultLines ++ [codeBlockPlaceholder],
        inBlock := true, startLine := pre.length, buffer := fence :: tail,
        idx := pre.length + 1 + tail.length,
        closed := (codeScan pre).closed } := by
    rw [hsplit]
    exact codeScan_unclosed pre tail fence hpre hf htail
  refine ⟨by rw [hscan], ?_, ?_⟩
  · rw [hscan]
    exact List.mem_append_right _ (List.mem_cons_self _ _)
  · refine ⟨(codeScan pre).resultLines, ?_⟩
    unfold safe_remove_code_blocks
    rw [hscan]

theorem claim_C10_witness :
    (codeScan (splitNl "```js\nhidden".data)).resultLines =
      (codeScan ([] : List (List Char))).resultLines ++
        [codeBlockPlaceholder] ∧
    codeBlockPlaceholder ∈ (codeScan (splitNl "```js\nhidden".data)).resultLines ∧
    (∃ ls, (safe_remove_code_blocks "```js\nhidden" ⟨true, []⟩).1 =
      String.mk (joinNl (ls ++ [codeBlockPlaceholder]))) :=
  claim_C10_placeholder "```js\nhidden" [] ["hidden".data] "```js".data
    (by decide) (by decide) (by decide) (by decide)

/-- C4 amended: a second run of the pipeline is not the identity in
general even outside horizontal-rule false positives, because escape
resolution can recreate markup that the second run consumes
(`\# Hello` → `# Hello` → `Hello`); outputs free of residual markup,
such as `Hello world`, are fixed points. -/
theorem claim_C4_amended :
    (convert_markdown_to_text
        (convert_markdown_to_text "Hello world" false none).text false
        none).text =
      (convert_markdown_to_text "Hello world" false none).text ∧
    (convert_markdown_to_text
        (convert_markdown_to_text "\\# Hello" false none).text false
        none).text ≠
      (convert_markdown_to_text "\\# Hello" false none).text :=
  ⟨by decide, by decide⟩

end MarkdownToText
